import Mathlib

/-!
Verification of the HAFiscal dashboard's HANK-SAM computations
(`src/dashboard/hank_sam.py`, with `src/dashboard/hafiscal.py` as the
original monolithic script).  Machine floats of the source are embedded
as exact rationals; numpy arrays over the six employment states are
embedded as `Matrix (Fin 6) (Fin 6) ℚ` and `Fin 6 → ℚ`.
-/

namespace HankSam

/-- Job finding probability per quarter (`job_find = 2/3` in the source). -/
def job_find : ℚ := 2 / 3

/-- Employment-to-unemployment transition probability (`EU_prob`). -/
def EU_prob : ℚ := 0.0306834

/-- Job separation rate, derived as `EU_prob / (1 - job_find)`. -/
def job_sep : ℚ := EU_prob / (1 - job_find)

/-- Quarterly gross real interest rate (`R = 1.01`). -/
def R : ℚ := 1.01

/-- Horizon for impulse responses and Jacobian matrices (`bigT = 300`). -/
def bigT : ℕ := 300

/-- Reduction of a vector literal at index five (Mathlib's simp set stops at
`Matrix.cons_val_four`). -/
@[simp] theorem cons_val_five {α : Type*} {m : ℕ} (x : α)
    (u : Fin m.succ.succ.succ.succ.succ → α) :
    Matrix.vecCons x u 5 =
      Matrix.vecHead (Matrix.vecTail (Matrix.vecTail (Matrix.vecTail (Matrix.vecTail u)))) :=
  rfl

/-- Head of a constant vector. -/
@[simp] theorem vecHead_const {α : Type*} {n : ℕ} (c : α) :
    Matrix.vecHead (fun _ : Fin (n + 1) => c) = c :=
  rfl

/-- Tail of a constant vector. -/
@[simp] theorem vecTail_const {α : Type*} {n : ℕ} (c : α) :
    Matrix.vecTail (fun _ : Fin (n + 1) => c) = fun _ : Fin n => c :=
  rfl

/-- The 6-state Markov transition matrix of `calibrate_labor_market` and
`create_matrix_U`, with the job-finding probability `f` and separation rate
`sep` as parameters (the source instantiates `f` with the global `job_find`,
or with `job_find + dx` inside `create_matrix_U`).  Convention of the source:
the distribution is updated by `dstn ↦ M · dstn`, so columns (not rows)
describe the outflow of each state. -/
def markov_matrix (f sep : ℚ) : Matrix (Fin 6) (Fin 6) ℚ :=
  !![1 - sep * (1 - f), f, f, f, f, f;
     sep * (1 - f), 0, 0, 0, 0, 0;
     0, (1 - f), 0, 0, 0, 0;
     0, 0, (1 - f), 0, 0, 0;
     0, 0, 0, (1 - f), 0, 0;
     0, 0, 0, 0, (1 - f), (1 - f)]

/-- Matrix `markov_array_ss` of `calibrate_labor_market`: the transition matrix at
the calibrated parameters. -/
def markov_array_ss : Matrix (Fin 6) (Fin 6) ℚ := markov_matrix job_find job_sep

/-- Matrix `create_matrix_U dx` of `compute_unemployment_jacobian`: the transition
matrix with the job-finding probability perturbed to `job_find + dx`. -/
def create_matrix_U (dx : ℚ) : Matrix (Fin 6) (Fin 6) ℚ :=
  markov_matrix (job_find + dx) job_sep

/-- Unnormalized eigenvalue-1 eigenvector of `markov_matrix f sep`, in the
closed form obtained by solving `M · w = w` with first entry one.  In the
source an eigenvector is produced numerically by
`scipy.sparse.linalg.eigs(markov_array_ss, k=1, which="LM")`. -/
def stationary_w (f sep : ℚ) : Fin 6 → ℚ :=
  ![1, sep * (1 - f), sep * (1 - f) ^ 2, sep * (1 - f) ^ 3, sep * (1 - f) ^ 4,
    sep * (1 - f) ^ 5 / f]

/-- The sum of the entries of `stationary_w`, in closed form. -/
def stationary_norm (f sep : ℚ) : ℚ :=
  1 + sep * (1 - f) * (1 + (1 - f) + (1 - f) ^ 2 + (1 - f) ^ 3 + (1 - f) ^ 4 / f)

/-- The stationary distribution of `markov_matrix f sep`: the eigenvector
normalized by its sum, mirroring `ss_dstn = ss_dstn[:, 0] / np.sum(ss_dstn[:, 0])`
in `calibrate_labor_market` (the source also takes the real part, which is the
identity here since the embedding is exact rational arithmetic). -/
def stationary_dstn (f sep : ℚ) : Fin 6 → ℚ := fun j =>
  stationary_w f sep j / stationary_norm f sep

/-- Vector `ss_dstn` of `calibrate_labor_market`: the stationary distribution at the
calibrated parameters. -/
def ss_dstn : Fin 6 → ℚ := stationary_dstn job_find job_sep

/-- Scalar `N_ss`: steady-state employment rate, the first entry of `ss_dstn`. -/
def N_ss : ℚ := ss_dstn 0

/-- Scalar `U_ss`: steady-state unemployment rate, `1 - ss_dstn[0]`. -/
def U_ss : ℚ := 1 - ss_dstn 0

/-- The `unemployment1` block of the model: the aggregate unemployment rate
is the sum of the five unemployed-state masses. -/
def unemployment1 (U1 U2 U3 U4 U5 : ℚ) : ℚ := U1 + U2 + U3 + U4 + U5

theorem stationary_norm_eq_sum (f sep : ℚ) (hf : f ≠ 0) :
    stationary_norm f sep = ∑ j, stationary_w f sep j := by
  simp [stationary_w, stationary_norm, Fin.sum_univ_six]
  (try field_simp); (try ring)

theorem stationary_norm_pos (f sep : ℚ) (hf0 : 0 < f) (hf1 : f ≤ 1)
    (hsep : 0 ≤ sep) : 0 < stationary_norm f sep := by
  have h1f : (0 : ℚ) ≤ 1 - f := by linarith
  have h4 : (0 : ℚ) ≤ (1 - f) ^ 4 / f := div_nonneg (pow_nonneg h1f 4) hf0.le
  have hfac : (0 : ℚ) ≤ 1 + (1 - f) + (1 - f) ^ 2 + (1 - f) ^ 3 + (1 - f) ^ 4 / f := by
    have := pow_nonneg h1f 2
    have := pow_nonneg h1f 3
    linarith
  have : (0 : ℚ) ≤ sep * (1 - f) * (1 + (1 - f) + (1 - f) ^ 2 + (1 - f) ^ 3 + (1 - f) ^ 4 / f) :=
    mul_nonneg (mul_nonneg hsep h1f) hfac
  unfold stationary_norm
  linarith

theorem stationary_w_eigen (f sep : ℚ) (hf : f ≠ 0) :
    (markov_matrix f sep).mulVec (stationary_w f sep) = stationary_w f sep := by
  funext j
  fin_cases j <;>
    (simp [markov_matrix, stationary_w, Matrix.mulVec, Matrix.dotProduct,
        Fin.sum_univ_six]
     <;> (try field_simp)
     <;> (try ring))

theorem stationary_dstn_eigen (f sep : ℚ) (hf : f ≠ 0) :
    (markov_matrix f sep).mulVec (stationary_dstn f sep) = stationary_dstn f sep := by
  have hw := stationary_w_eigen f sep hf
  funext j
  have : (markov_matrix f sep).mulVec (stationary_dstn f sep) j
      = ((markov_matrix f sep).mulVec (stationary_w f sep) j) / stationary_norm f sep := by
    simp [stationary_dstn, Matrix.mulVec, Matrix.dotProduct, div_eq_mul_inv,
      Finset.sum_mul, mul_assoc]
  rw [this, hw, stationary_dstn]

theorem stationary_dstn_sum (f sep : ℚ) (hf0 : 0 < f) (hf1 : f ≤ 1)
    (hsep : 0 ≤ sep) :
    ∑ j, stationary_dstn f sep j = 1 := by
  have hS := stationary_norm_pos f sep hf0 hf1 hsep
  have hsum := stationary_norm_eq_sum f sep hf0.ne'
  simp only [stationary_dstn]
  rw [← Finset.sum_div, ← hsum, div_self hS.ne']

theorem stationary_dstn_nonneg (f sep : ℚ) (hf0 : 0 < f) (hf1 : f ≤ 1)
    (hsep : 0 ≤ sep) :
    ∀ j, 0 ≤ stationary_dstn f sep j := by
  have hS := stationary_norm_pos f sep hf0 hf1 hsep
  have h1f : (0 : ℚ) ≤ 1 - f := by linarith
  intro j
  have hw : 0 ≤ stationary_w f sep j := by
    fin_cases j
    · exact zero_le_one
    · exact mul_nonneg hsep h1f
    · exact mul_nonneg hsep (pow_nonneg h1f 2)
    · exact mul_nonneg hsep (pow_nonneg h1f 3)
    · exact mul_nonneg hsep (pow_nonneg h1f 4)
    · exact div_nonneg (mul_nonneg hsep (pow_nonneg h1f 5)) hf0.le
  exact div_nonneg hw hS.le

theorem markov_array_ss_eigen : markov_array_ss.mulVec ss_dstn = ss_dstn :=
  stationary_dstn_eigen job_find job_sep (by norm_num [job_find])

theorem markov_matrix_col_sum (f sep : ℚ) (i : Fin 6) :
    ∑ j, markov_matrix f sep j i = 1 := by
  fin_cases i <;> (simp [markov_matrix, Fin.sum_univ_six]; try ring)

theorem markov_matrix_mass (f sep : ℚ) (d : Fin 6 → ℚ) :
    ∑ j, (markov_matrix f sep).mulVec d j = ∑ j, d j := by
  simp only [Matrix.mulVec, Matrix.dotProduct]
  rw [Finset.sum_comm]
  refine Finset.sum_congr rfl fun i _ => ?_
  rw [← Finset.sum_mul, markov_matrix_col_sum, one_mul]

/-- Perturbation step size of `compute_unemployment_jacobian` (`dx = 0.0001`). -/
def dx : ℚ := 0.0001

/-- One period of the inner loop of `compute_unemployment_jacobian` for
shock-time column `s`: at period `i = s` the perturbed matrix is applied
(`tranmat = create_matrix_U(dx); dstn = np.dot(tranmat, dstn)`), otherwise the
steady-state matrix (`dstn = np.dot(markov_array_ss, dstn)`). -/
def jac_step (s i : ℕ) (dstn : Fin 6 → ℚ) : Fin 6 → ℚ :=
  if i = s then (create_matrix_U dx).mulVec dstn else markov_array_ss.mulVec dstn

/-- The running distribution after processing periods `0 .. i` of shock-time
column `s`, starting the column from `d0`. -/
def col_dstn (s : ℕ) (d0 : Fin 6 → ℚ) : ℕ → Fin 6 → ℚ
  | 0 => jac_step s 0 d0
  | i + 1 => jac_step s (i + 1) (col_dstn s d0 i)

/-- The running distribution at the start of shock-time column `s`.  The code
initializes `dstn = ss_dstn.copy()` once, before the loop over `s`, and then
carries the distribution over from the end of each column (period `bigT - 1`)
to the start of the next column. -/
def col_start : ℕ → Fin 6 → ℚ
  | 0 => ss_dstn
  | s + 1 => col_dstn s (col_start s) (bigT - 1)

/-- Entry `UJAC[j, i, s]` of `compute_unemployment_jacobian`:
`(dstn - ss_dstn) / dx` recorded after the period-`i` update of column `s`. -/
def UJAC (j : Fin 6) (i s : ℕ) : ℚ :=
  (col_dstn s (col_start s) i j - ss_dstn j) / dx

/-- The Jacobian described by the spec sentence under test: identical to
`UJAC` except that the running distribution is reset to the steady-state
distribution at the start of every shock-time column `s`. -/
def UJAC_spec (j : Fin 6) (i s : ℕ) : ℚ :=
  (col_dstn s ss_dstn i j - ss_dstn j) / dx

/-- Iterated application of the steady-state transition matrix. -/
def iterateM (k : ℕ) (d : Fin 6 → ℚ) : Fin 6 → ℚ :=
  markov_array_ss.mulVec^[k] d

/-- The second eigenvalue of the steady-state transition matrix:
`(1 - job_sep) / 3`. -/
def lam2 : ℚ := (1 - job_sep) / 3

/-- A left eigenvector of the steady-state transition matrix for the
eigenvalue `lam2`, orthogonal to the stationary distribution. -/
def uvec : Fin 6 → ℚ :=
  ![1, -2 / job_sep, -2 / job_sep, -2 / job_sep, -2 / job_sep, -2 / job_sep]

theorem uvec_vecMul : Matrix.vecMul uvec markov_array_ss = lam2 • uvec := by
  funext j
  fin_cases j <;>
    · simp [uvec, lam2, markov_array_ss, markov_matrix, job_find, job_sep, EU_prob,
        Matrix.vecMul, Matrix.dotProduct, Fin.sum_univ_six]
      norm_num

theorem uvec_dot_ss : Matrix.dotProduct uvec ss_dstn = 0 := by
  simp [uvec, ss_dstn, stationary_dstn, stationary_w, stationary_norm,
    job_find, job_sep, EU_prob, Matrix.dotProduct, Fin.sum_univ_six]
  norm_num

theorem uvec_dot_pert :
    Matrix.dotProduct uvec ((create_matrix_U dx).mulVec ss_dstn) ≠ 0 := by
  simp [uvec, ss_dstn, stationary_dstn, stationary_w, stationary_norm,
    create_matrix_U, markov_matrix, job_find, job_sep, EU_prob, dx,
    Matrix.mulVec, Matrix.dotProduct, Fin.sum_univ_six]
  norm_num

theorem lam2_ne_zero : lam2 ≠ 0 := by
  norm_num [lam2, job_sep, EU_prob, job_find]

theorem uvec_dot_iterate (k : ℕ) (d : Fin 6 → ℚ) :
    Matrix.dotProduct uvec (iterateM k d) = lam2 ^ k * Matrix.dotProduct uvec d := by
  induction k with
  | zero => simp [iterateM]
  | succ k ih =>
      have : iterateM (k + 1) d = markov_array_ss.mulVec (iterateM k d) :=
        Function.iterate_succ_apply' _ _ _
      rw [this, Matrix.dotProduct_mulVec, uvec_vecMul, Matrix.smul_dotProduct, ih,
        smul_eq_mul]
      ring

theorem col_dstn_lt (s : ℕ) (d : Fin 6 → ℚ) :
    ∀ i, i < s → col_dstn s d i = iterateM (i + 1) d := by
  intro i
  induction i with
  | zero =>
      intro h
      have hs : (0 : ℕ) ≠ s := Nat.ne_of_lt h
      simp [col_dstn, jac_step, hs, iterateM]
  | succ i ih =>
      intro h
      have hs : i + 1 ≠ s := Nat.ne_of_lt h
      have hi : i < s := Nat.lt_of_succ_lt h
      simp only [col_dstn, jac_step, hs, if_false, ih hi, iterateM]
      exact (Function.iterate_succ_apply' _ _ _).symm

theorem col_dstn_ge (s : ℕ) (d : Fin 6 → ℚ) :
    ∀ i, s ≤ i →
      col_dstn s d i = iterateM (i - s) ((create_matrix_U dx).mulVec (iterateM s d)) := by
  intro i
  induction i with
  | zero =>
      intro h
      have hs : s = 0 := Nat.le_zero.mp h
      subst hs
      simp [col_dstn, jac_step, iterateM]
  | succ i ih =>
      intro h
      rcases Nat.lt_or_ge i s with hlt | hge
      · have hs : s = i + 1 := Nat.le_antisymm h hlt
        subst hs
        simp only [col_dstn, jac_step, if_pos rfl, Nat.sub_self]
        rw [col_dstn_lt (i + 1) d i (Nat.lt_succ_self i)]
        rfl
      · have hs : i + 1 ≠ s := by omega
        simp only [col_dstn, jac_step, hs, if_false, ih hge]
        have hsub : i + 1 - s = (i - s) + 1 := by omega
        rw [hsub, iterateM]
        exact (Function.iterate_succ_apply' _ _ _).symm

theorem col_start_one :
    col_start 1 = iterateM (bigT - 1) ((create_matrix_U dx).mulVec ss_dstn) := by
  have h0 : col_start 1 = col_dstn 0 ss_dstn (bigT - 1) := rfl
  rw [h0, col_dstn_ge 0 ss_dstn (bigT - 1) (Nat.zero_le _)]
  simp [iterateM]

theorem uvec_dot_col_start_one :
    Matrix.dotProduct uvec (col_start 1) =
      lam2 ^ (bigT - 1) *
        Matrix.dotProduct uvec ((create_matrix_U dx).mulVec ss_dstn) := by
  rw [col_start_one]
  exact uvec_dot_iterate _ _

/-- C1 (counterexample): in `compute_unemployment_jacobian` the running
distribution is NOT reset to the steady-state distribution at the start of
shock-time column `s = 1`: the distribution carried over from column `0`
still differs from `ss_dstn`, and consequently the recorded Jacobian entry
column `[:, 0, 1]` differs from what the claimed reset-every-column variant
(`UJAC_spec`) records there. -/
theorem C1_counterexample :
    col_start 1 ≠ ss_dstn ∧ (fun j => UJAC j 0 1) ≠ (fun j => UJAC_spec j 0 1) := by
  have hdx : dx ≠ 0 := by norm_num [dx]
  have hpert := uvec_dot_pert
  have hlam := lam2_ne_zero
  constructor
  · intro h
    have h2 := uvec_dot_col_start_one
    rw [h, uvec_dot_ss] at h2
    exact (mul_ne_zero (pow_ne_zero _ hlam) hpert) h2.symm
  · intro h
    have hM : markov_array_ss.mulVec (col_start 1) = ss_dstn := by
      funext j
      have hj := congrFun h j
      simp only [UJAC, UJAC_spec] at hj
      have e1 : col_dstn 1 (col_start 1) 0 = markov_array_ss.mulVec (col_start 1) := by
        simp [col_dstn, jac_step]
      have e2 : col_dstn 1 ss_dstn 0 = markov_array_ss.mulVec ss_dstn := by
        simp [col_dstn, jac_step]
      rw [e1, e2, markov_array_ss_eigen] at hj
      have h3 := congrArg (· * dx) hj
      simp only [div_mul_cancel₀ _ hdx] at h3
      linarith
    have h4 : Matrix.dotProduct uvec (markov_array_ss.mulVec (col_start 1)) =
        lam2 * Matrix.dotProduct uvec (col_start 1) := by
      rw [Matrix.dotProduct_mulVec, uvec_vecMul, Matrix.smul_dotProduct, smul_eq_mul]
    rw [hM, uvec_dot_ss, uvec_dot_col_start_one] at h4
    exact (mul_ne_zero hlam (mul_ne_zero (pow_ne_zero _ hlam) hpert)) h4.symm

/-- C1 (amended): in the unemployment-Jacobian computation the running
distribution is initialized to the steady-state distribution once, before the
first shock-time column, and carried over from the end of each column to the
start of the next (not reset per column); within column `s` the perturbed
transition matrix is applied only at the one period `i = s` and the
unperturbed steady-state matrix at every other period, and entry `[:, i, s]`
is recorded as `(current distribution - steady-state distribution) / dx`. -/
theorem C1_unemployment_jacobian (s i : ℕ) (j : Fin 6) :
    (i < s → UJAC j i s = (iterateM (i + 1) (col_start s) j - ss_dstn j) / dx) ∧
    (s ≤ i → UJAC j i s =
      (iterateM (i - s) ((create_matrix_U dx).mulVec (iterateM s (col_start s))) j
        - ss_dstn j) / dx) ∧
    col_start 0 = ss_dstn ∧
    col_start (s + 1) = col_dstn s (col_start s) (bigT - 1) := by
  refine ⟨fun h => ?_, fun h => ?_, rfl, rfl⟩
  · rw [UJAC, col_dstn_lt s (col_start s) i h]
  · rw [UJAC, col_dstn_ge s (col_start s) i h]

theorem C1_unemployment_jacobian_witness :
    ((0 : ℕ) < 1 ∧
      UJAC 0 0 1 = (iterateM 1 (col_start 1) 0 - ss_dstn 0) / dx) ∧
    ((0 : ℕ) ≤ 0 ∧
      UJAC 0 0 0 =
        (iterateM 0 ((create_matrix_U dx).mulVec (iterateM 0 (col_start 0))) 0
          - ss_dstn 0) / dx) :=
  ⟨⟨Nat.zero_lt_one, (C1_unemployment_jacobian 1 0 0).1 Nat.zero_lt_one⟩,
   ⟨Nat.le_refl 0, ((C1_unemployment_jacobian 0 0 0).2.1 (Nat.le_refl 0))⟩⟩

/-- C6: for every calibration with valid transition probabilities
(`0 < job_find ≤ 1`, `0 ≤ job_sep`), the 6-entry stationary distribution
returned by `calibrate_labor_market` — the eigenvalue-1 eigenvector of the
transition matrix normalized by its sum — sums to 1 and every entry is
non-negative (exactly, hence within the claimed tolerance `1e-10`). -/
theorem C6_stationary_distribution (f sep : ℚ) (hf0 : 0 < f) (hf1 : f ≤ 1)
    (hsep : 0 ≤ sep) :
    (markov_matrix f sep).mulVec (stationary_dstn f sep) = stationary_dstn f sep ∧
    ∑ j, stationary_dstn f sep j = 1 ∧
    ∀ j, 0 ≤ stationary_dstn f sep j :=
  ⟨stationary_dstn_eigen f sep hf0.ne', stationary_dstn_sum f sep hf0 hf1 hsep,
   stationary_dstn_nonneg f sep hf0 hf1 hsep⟩

theorem C6_stationary_distribution_witness :
    (0 < job_find ∧ job_find ≤ 1 ∧ 0 ≤ job_sep) ∧
    (markov_array_ss.mulVec ss_dstn = ss_dstn ∧
      ∑ j, ss_dstn j = 1 ∧ ∀ j, 0 ≤ ss_dstn j) :=
  ⟨⟨by norm_num [job_find], by norm_num [job_find],
    by norm_num [job_sep, EU_prob, job_find]⟩,
   C6_stationary_distribution job_find job_sep (by norm_num [job_find])
     (by norm_num [job_find]) (by norm_num [job_sep, EU_prob, job_find])⟩

/-- C8: the steady-state employment rate `N_ss` plus the sum of the five
unemployed-state masses (`ss_dstn[1]` through `ss_dstn[5]`, the aggregate
unemployment rate `U_ss` computed by the `unemployment1` block) equals 1
exactly (hence within the claimed tolerance `1e-10`). -/
theorem C8_employment_plus_unemployment :
    U_ss = unemployment1 (ss_dstn 1) (ss_dstn 2) (ss_dstn 3) (ss_dstn 4) (ss_dstn 5) ∧
    N_ss + unemployment1 (ss_dstn 1) (ss_dstn 2) (ss_dstn 3) (ss_dstn 4) (ss_dstn 5)
      = 1 := by
  constructor <;>
    norm_num [U_ss, N_ss, unemployment1, ss_dstn, stationary_dstn, stationary_w,
      stationary_norm, job_find, job_sep, EU_prob]

/-- C9: for every perturbation `dx` (including `dx = 0`), each column of the
6×6 transition matrix built by `calibrate_labor_market` and by
`create_matrix_U` sums exactly to 1, so the update `dstn ↦ M · dstn`
preserves the total mass of the distribution at every step of the Jacobian
forward simulation. -/
theorem C9_column_stochastic :
    (∀ dq : ℚ, ∀ i, ∑ j, create_matrix_U dq j i = 1) ∧
    (∀ i, ∑ j, markov_array_ss j i = 1) ∧
    (∀ dq : ℚ, ∀ d : Fin 6 → ℚ, ∑ j, (create_matrix_U dq).mulVec d j = ∑ j, d j) ∧
    (∀ d : Fin 6 → ℚ, ∑ j, markov_array_ss.mulVec d j = ∑ j, d j) :=
  ⟨fun _ i => markov_matrix_col_sum _ _ i, fun i => markov_matrix_col_sum _ _ i,
   fun _ d => markov_matrix_mass _ _ d, fun d => markov_matrix_mass _ _ d⟩

/-- Function `NPV` of the source: starting from `NPV_val = 0`, accumulate
`irf[i] / discount_rate ** i` for `i` in `range(length)`.  In the source the
`discount_rate` argument defaults to the global `R`; every call modelled below
passes `R` explicitly. -/
def NPV (irf : ℕ → ℚ) (length : ℕ) (discount_rate : ℚ) : ℚ :=
  (List.range length).foldl (fun NPV_val i => NPV_val + irf i / discount_rate ^ i) 0

theorem NPV_eq_sum (irf : ℕ → ℚ) (n : ℕ) (r : ℚ) :
    NPV irf n r = ∑ i ∈ Finset.range n, irf i / r ^ i := by
  induction n with
  | zero => simp [NPV]
  | succ n ih =>
      rw [NPV, List.range_succ, List.foldl_append, List.foldl_cons, List.foldl_nil,
        Finset.sum_range_succ, ← ih, NPV]

/-- C7: `NPV` is linear in the input series: for all scalars `a`, `b`, series
`x`, `y`, every truncation length `n` and discount rate,
`NPV (a·x + b·y) n = a · NPV x n + b · NPV y n`. -/
theorem C7_NPV_linear (a b : ℚ) (x y : ℕ → ℚ) (n : ℕ) (r : ℚ) :
    NPV (fun i => a * x i + b * y i) n r = a * NPV x n r + b * NPV y n r := by
  simp only [NPV_eq_sum, Finset.mul_sum, ← Finset.sum_add_distrib]
  refine Finset.sum_congr rfl fun i _ => ?_
  ring

/-- Output record of `compute_fiscal_multipliers`: the nine multiplier arrays
(three fiscal policies × three monetary regimes), each indexed by horizon. -/
structure FiscalMultipliers where
  multipliers_transfers : ℕ → ℚ
  multipliers_UI_extend : ℕ → ℚ
  multipliers_tax_cut : ℕ → ℚ
  multipliers_transfers_fixed_nominal_rate : ℕ → ℚ
  multipliers_UI_extensions_fixed_nominal_rate : ℕ → ℚ
  multipliers_tax_cut_fixed_nominal_rate : ℕ → ℚ
  multipliers_transfers_fixed_real_rate : ℕ → ℚ
  multipliers_UI_extensions_fixed_real_rate : ℕ → ℚ
  multipliers_tax_cut_fixed_real_rate : ℕ → ℚ

/-- The multiplier loop of `compute_fiscal_multipliers`, as a function of the
nine impulse-response dictionaries produced by the experiment runs (each a map
from variable name to a time series).  For `i` in `range(horizon_length)` the
source sets `multiplier[i] = NPV(irf["C"], i + 1) / NPV(irf[cost_key], 300)`,
negated for the three tax-cut series; array entries outside the loop range
stay at their `np.zeros` initialization. -/
def compute_fiscal_multipliers (horizon_length : ℕ)
    (irfs_UI_extend irfs_UI_extend_fixed_nominal_rate
     irfs_UI_extension_fixed_real_rate irfs_transfer
     irfs_transfer_fixed_nominal_rate irfs_transfer_fixed_real_rate
     irfs_tau irfs_tau_fixed_nominal_rate irfs_tau_fixed_real_rate :
       String → ℕ → ℚ) : FiscalMultipliers where
  multipliers_transfers := fun i =>
    if i < horizon_length then
      NPV (irfs_transfer "C") (i + 1) R / NPV (irfs_transfer "transfers") 300 R
    else 0
  multipliers_UI_extend := fun i =>
    if i < horizon_length then
      NPV (irfs_UI_extend "C") (i + 1) R /
        NPV (irfs_UI_extend "UI_extension_cost") 300 R
    else 0
  multipliers_tax_cut := fun i =>
    if i < horizon_length then
      -NPV (irfs_tau "C") (i + 1) R / NPV (irfs_tau "tax_cost") 300 R
    else 0
  multipliers_transfers_fixed_nominal_rate := fun i =>
    if i < horizon_length then
      NPV (irfs_transfer_fixed_nominal_rate "C") (i + 1) R /
        NPV (irfs_transfer_fixed_nominal_rate "transfers") 300 R
    else 0
  multipliers_UI_extensions_fixed_nominal_rate := fun i =>
    if i < horizon_length then
      NPV (irfs_UI_extend_fixed_nominal_rate "C") (i + 1) R /
        NPV (irfs_UI_extend_fixed_nominal_rate "UI_extension_cost") 300 R
    else 0
  multipliers_tax_cut_fixed_nominal_rate := fun i =>
    if i < horizon_length then
      -NPV (irfs_tau_fixed_nominal_rate "C") (i + 1) R /
        NPV (irfs_tau_fixed_nominal_rate "tax_cost") 300 R
    else 0
  multipliers_transfers_fixed_real_rate := fun i =>
    if i < horizon_length then
      NPV (irfs_transfer_fixed_real_rate "C") (i + 1) R /
        NPV (irfs_transfer_fixed_real_rate "transfers") 300 R
    else 0
  multipliers_UI_extensions_fixed_real_rate := fun i =>
    if i < horizon_length then
      NPV (irfs_UI_extension_fixed_real_rate "C") (i + 1) R /
        NPV (irfs_UI_extension_fixed_real_rate "UI_extension_cost") 300 R
    else 0
  multipliers_tax_cut_fixed_real_rate := fun i =>
    if i < horizon_length then
      -NPV (irfs_tau_fixed_real_rate "C") (i + 1) R /
        NPV (irfs_tau_fixed_real_rate "tax_cost") 300 R
    else 0

/-- C2: for every horizon `h` from 1 to `horizon_length` and each of the nine
policy-by-monetary-regime combinations, `compute_fiscal_multipliers` sets
`multiplier(h)` (stored at array index `h - 1`) to
`NPV(consumption IRF truncated to h periods, R) / NPV(fiscal-cost IRF over the
full 300-period horizon, R)`, where `NPV(x, n) = Σ_{i<n} x[i] / R^i`; the
three tax-cut series are negated and the transfer and UI-extension series are
not.  The same discount rate `R` is used in all nine series. -/
theorem C2_fiscal_multipliers (horizon_length : ℕ)
    (ui un ur tf tn tr xa xn xr : String → ℕ → ℚ) (h : ℕ)
    (h1 : 1 ≤ h) (h2 : h ≤ horizon_length) :
    ((compute_fiscal_multipliers horizon_length ui un ur tf tn tr xa xn
        xr).multipliers_transfers (h - 1) =
      (∑ i ∈ Finset.range h, tf "C" i / R ^ i) /
        (∑ i ∈ Finset.range 300, tf "transfers" i / R ^ i)) ∧
    ((compute_fiscal_multipliers horizon_length ui un ur tf tn tr xa xn
        xr).multipliers_UI_extend (h - 1) =
      (∑ i ∈ Finset.range h, ui "C" i / R ^ i) /
        (∑ i ∈ Finset.range 300, ui "UI_extension_cost" i / R ^ i)) ∧
    ((compute_fiscal_multipliers horizon_length ui un ur tf tn tr xa xn
        xr).multipliers_tax_cut (h - 1) =
      -(∑ i ∈ Finset.range h, xa "C" i / R ^ i) /
        (∑ i ∈ Finset.range 300, xa "tax_cost" i / R ^ i)) ∧
    ((compute_fiscal_multipliers horizon_length ui un ur tf tn tr xa xn
        xr).multipliers_transfers_fixed_nominal_rate (h - 1) =
      (∑ i ∈ Finset.range h, tn "C" i / R ^ i) /
        (∑ i ∈ Finset.range 300, tn "transfers" i / R ^ i)) ∧
    ((compute_fiscal_multipliers horizon_length ui un ur tf tn tr xa xn
        xr).multipliers_UI_extensions_fixed_nominal_rate (h - 1) =
      (∑ i ∈ Finset.range h, un "C" i / R ^ i) /
        (∑ i ∈ Finset.range 300, un "UI_extension_cost" i / R ^ i)) ∧
    ((compute_fiscal_multipliers horizon_length ui un ur tf tn tr xa xn
        xr).multipliers_tax_cut_fixed_nominal_rate (h - 1) =
      -(∑ i ∈ Finset.range h, xn "C" i / R ^ i) /
        (∑ i ∈ Finset.range 300, xn "tax_cost" i / R ^ i)) ∧
    ((compute_fiscal_multipliers horizon_length ui un ur tf tn tr xa xn
        xr).multipliers_transfers_fixed_real_rate (h - 1) =
      (∑ i ∈ Finset.range h, tr "C" i / R ^ i) /
        (∑ i ∈ Finset.range 300, tr "transfers" i / R ^ i)) ∧
    ((compute_fiscal_multipliers horizon_length ui un ur tf tn tr xa xn
        xr).multipliers_UI_extensions_fixed_real_rate (h - 1) =
      (∑ i ∈ Finset.range h, ur "C" i / R ^ i) /
        (∑ i ∈ Finset.range 300, ur "UI_extension_cost" i / R ^ i)) ∧
    ((compute_fiscal_multipliers horizon_length ui un ur tf tn tr xa xn
        xr).multipliers_tax_cut_fixed_real_rate (h - 1) =
      -(∑ i ∈ Finset.range h, xr "C" i / R ^ i) /
        (∑ i ∈ Finset.range 300, xr "tax_cost" i / R ^ i)) := by
  have hi : h - 1 < horizon_length := by omega
  have hh : h - 1 + 1 = h := by omega
  refine ⟨?_, ?_, ?_, ?_, ?_, ?_, ?_, ?_, ?_⟩ <;>
    simp [compute_fiscal_multipliers, hi, hh, NPV_eq_sum]

theorem C2_fiscal_multipliers_witness :
    1 ≤ 1 ∧ (1 : ℕ) ≤ 20 ∧
    ((compute_fiscal_multipliers 20 (fun _ _ => 0) (fun _ _ => 0) (fun _ _ => 0)
        (fun _ _ => 0) (fun _ _ => 0) (fun _ _ => 0) (fun _ _ => 0) (fun _ _ => 0)
        (fun _ _ => 0)).multipliers_transfers 0 =
      (∑ i ∈ Finset.range 1, (fun _ _ => (0 : ℚ)) "C" i / R ^ i) /
        (∑ i ∈ Finset.range 300, (fun _ _ => (0 : ℚ)) "transfers" i / R ^ i)) :=
  ⟨le_refl 1, by norm_num,
    (C2_fiscal_multipliers 20 (fun _ _ => 0) (fun _ _ => 0) (fun _ _ => 0)
      (fun _ _ => 0) (fun _ _ => 0) (fun _ _ => 0) (fun _ _ => 0) (fun _ _ => 0)
      (fun _ _ => 0) 1 (le_refl 1) (by norm_num)).1⟩

/-- Constant `splurge = 0.3` of `apply_splurge_behavior`: the hand-to-mouth share. -/
def splurge : ℚ := 0.3

/-- Column vector `present_value` of `apply_splurge_behavior`: for each shock time `s`
(column), the discounted sum over response times of the consumption Jacobian
column, `np.sum(J / R ** np.arange(periods), axis=0)`. -/
def present_value {T : ℕ} (J : Matrix (Fin T) (Fin T) ℚ) : Fin T → ℚ :=
  fun s => ∑ t, J t s / R ^ (t : ℕ)

/-- Diagonal matrix `splurge_jacobian_component` of `apply_splurge_behavior`:
`np.diag(present_value * R ** np.arange(periods))`. -/
def splurge_jacobian_component {T : ℕ} (J : Matrix (Fin T) (Fin T) ℚ) :
    Matrix (Fin T) (Fin T) ℚ :=
  Matrix.diagonal fun t => present_value J t * R ^ (t : ℕ)

/-- The consumption-Jacobian splurge transform of `apply_splurge_behavior`,
`splurge * splurge_jacobian_component + (1 - splurge) * J`, with the splurge
share as a parameter (the source fixes it to the constant `splurge = 0.3`). -/
def splurge_transform_C {T : ℕ} (splurge_share : ℚ)
    (J : Matrix (Fin T) (Fin T) ℚ) : Matrix (Fin T) (Fin T) ℚ :=
  splurge_share • splurge_jacobian_component J + (1 - splurge_share) • J

/-- The asset-Jacobian splurge transform of `apply_splurge_behavior`:
`(1 - splurge) * A`, with no diagonal term. -/
def splurge_transform_A {T : ℕ} (splurge_share : ℚ)
    (A : Matrix (Fin T) (Fin T) ℚ) : Matrix (Fin T) (Fin T) ℚ :=
  (1 - splurge_share) • A

/-- C3: for every `T×T` consumption Jacobian `J` and splurge share in
`[0, 1]`, the splurge transform returns
`share • diag(present_value · R^t) + (1 - share) • J`; at share 0 it equals
`J` exactly, at share 1 it equals the pure spend-on-arrival diagonal matrix
exactly; and the asset Jacobian is multiplied by `(1 - share)` with no
diagonal term added. -/
theorem C3_splurge_transform (T : ℕ) (splurge_share : ℚ)
    (h0 : 0 ≤ splurge_share) (h1 : splurge_share ≤ 1)
    (J A : Matrix (Fin T) (Fin T) ℚ) :
    splurge_transform_C splurge_share J =
      splurge_share •
          Matrix.diagonal (fun t => (∑ i, J i t / R ^ (i : ℕ)) * R ^ (t : ℕ)) +
        (1 - splurge_share) • J ∧
    splurge_transform_C 0 J = J ∧
    splurge_transform_C 1 J =
      Matrix.diagonal (fun t => (∑ i, J i t / R ^ (i : ℕ)) * R ^ (t : ℕ)) ∧
    splurge_transform_A splurge_share A = (1 - splurge_share) • A := by
  refine ⟨rfl, ?_, ?_, rfl⟩
  · simp [splurge_transform_C]
  · simp [splurge_transform_C, splurge_jacobian_component, present_value]

theorem C3_splurge_transform_witness :
    (0 : ℚ) ≤ 1 / 2 ∧ (1 : ℚ) / 2 ≤ 1 ∧
    (splurge_transform_C (1 / 2) (!![(2 : ℚ)]) =
        (1 / 2 : ℚ) •
            Matrix.diagonal
              (fun t : Fin 1 => (∑ i, !![(2 : ℚ)] i t / R ^ (i : ℕ)) * R ^ (t : ℕ)) +
          (1 - 1 / 2 : ℚ) • !![(2 : ℚ)] ∧
      splurge_transform_C 0 (!![(2 : ℚ)]) = !![(2 : ℚ)] ∧
      splurge_transform_C 1 (!![(2 : ℚ)]) =
        Matrix.diagonal
          (fun t : Fin 1 => (∑ i, !![(2 : ℚ)] i t / R ^ (i : ℕ)) * R ^ (t : ℕ)) ∧
      splurge_transform_A (1 / 2) (!![(3 : ℚ)]) = (1 - 1 / 2 : ℚ) • !![(3 : ℚ)]) :=
  ⟨by norm_num, by norm_num,
    C3_splurge_transform 1 (1 / 2) (by norm_num) (by norm_num) !![(2 : ℚ)] !![(3 : ℚ)]⟩

/-- The six policy-input keys whose Jacobians `apply_splurge_behavior`
replaces. -/
def splurge_inputs : List String := ["transfers", "tau", "UI_extend", "UI_rr", "eta", "w"]

/-- A `JacobianDict` as used by `apply_splurge_behavior`: the outputs `"C"`
and `"A"`, each mapping policy-input names to `T×T` Jacobians (`Option`
because the inner dictionaries need not contain every string key). -/
structure JacobianDict (T : ℕ) where
  C : String → Option (Matrix (Fin T) (Fin T) ℚ)
  A : String → Option (Matrix (Fin T) (Fin T) ℚ)

/-- Function `apply_splurge_behavior`: for each of the six policy inputs, replace the
`"C"` entry by the splurge-weighted combination (computed from the deep copy
of the original dictionary) and the `"A"` entry by its `(1 - splurge)`
rescaling; every other entry is left untouched, and the updated dictionary is
returned. -/
def apply_splurge_behavior {T : ℕ} (d : JacobianDict T) : JacobianDict T where
  C := fun k =>
    if k ∈ splurge_inputs then (d.C k).map (splurge_transform_C splurge) else d.C k
  A := fun k =>
    if k ∈ splurge_inputs then (d.A k).map (splurge_transform_A splurge) else d.A k

/-- C10: `apply_splurge_behavior` replaces only the `"C"` and `"A"` entries of
the six policy inputs `"transfers"`, `"tau"`, `"UI_extend"`, `"UI_rr"`,
`"eta"`, `"w"` — the `"C"` entry by `0.3 • diag + 0.7 • J` and the `"A"`
entry by `0.7 • A` — and leaves every other entry of the dictionary
unchanged. -/
theorem C10_splurge_frame {T : ℕ} (d : JacobianDict T) (k : String) :
    (k ∉ splurge_inputs →
      (apply_splurge_behavior d).C k = d.C k ∧
      (apply_splurge_behavior d).A k = d.A k) ∧
    (k ∈ splurge_inputs →
      (apply_splurge_behavior d).C k =
        (d.C k).map (fun J =>
          splurge • splurge_jacobian_component J + (1 - splurge) • J) ∧
      (apply_splurge_behavior d).A k = (d.A k).map (fun M => (1 - splurge) • M)) := by
  constructor
  · intro hk
    constructor <;> simp [apply_splurge_behavior, hk]
  · intro hk
    constructor <;>
      · simp only [apply_splurge_behavior, if_pos hk]
        rfl

theorem C10_splurge_frame_witness :
    ("Y" ∉ splurge_inputs ∧
      (apply_splurge_behavior
          (JacobianDict.mk (T := 1) (fun _ => some !![(1 : ℚ)])
            (fun _ => some !![(2 : ℚ)]))).C "Y" = some !![(1 : ℚ)] ∧
      (apply_splurge_behavior
          (JacobianDict.mk (T := 1) (fun _ => some !![(1 : ℚ)])
            (fun _ => some !![(2 : ℚ)]))).A "Y" = some !![(2 : ℚ)]) ∧
    ("transfers" ∈ splurge_inputs ∧
      (apply_splurge_behavior
          (JacobianDict.mk (T := 1) (fun _ => some !![(1 : ℚ)])
            (fun _ => some !![(2 : ℚ)]))).C "transfers" =
        (some !![(1 : ℚ)]).map (fun J =>
          splurge • splurge_jacobian_component J + (1 - splurge) • J) ∧
      (apply_splurge_behavior
          (JacobianDict.mk (T := 1) (fun _ => some !![(1 : ℚ)])
            (fun _ => some !![(2 : ℚ)]))).A "transfers" =
        (some !![(2 : ℚ)]).map (fun M => (1 - splurge) • M)) := by
  have hY : "Y" ∉ splurge_inputs := by decide
  have ht : "transfers" ∈ splurge_inputs := by decide
  exact ⟨⟨hY, (C10_splurge_frame _ "Y").1 hY⟩, ⟨ht, (C10_splurge_frame _ "transfers").2 ht⟩⟩

/-- Taylor-rule coefficient on inflation (`phi_pi = 1.5`). -/
def phi_pi : ℚ := 1.5

/-- Taylor-rule coefficient on output (`phi_y = 0.0`). -/
def phi_y : ℚ := 0

/-- Interest-rate smoothing parameter (`rho_r = 0.0`). -/
def rho_r : ℚ := 0

/-- Phillips-curve slope (`kappa_p_ss`). -/
def kappa_p_ss : ℚ := 0.06191950464396284

/-- Fiscal adjustment speed (`phi_b = 0.015`). -/
def phi_b : ℚ := 0.015

/-- Degree of real wage rigidity (`real_wage_rigidity = 0.837`). -/
def real_wage_rigidity : ℚ := 0.837

/-- Duration of the UI extension policy (`UI_extension_length = 4`). -/
def UI_extension_length : ℕ := 4

/-- Duration of the temporary tax cut (`tax_cut_length = 8`). -/
def tax_cut_length : ℕ := 8

/-- The `param_overrides` mapping accepted by the experiment functions: each
recognized key either carries a supplied value or is absent. -/
structure ParamOverrides where
  phi_pi : Option ℚ
  phi_y : Option ℚ
  rho_r : Option ℚ
  kappa_p : Option ℚ
  phi_b : Option ℚ
  real_wage_rigidity : Option ℚ
  UI_extension_length : Option ℕ
  tax_cut_length : Option ℕ
  deficit_T : Option ℤ
  lag : Option ℤ

/-- The entries that `run_transfer_experiments` (and, identically,
`run_ui_extension_experiments`) writes into its copy of `SteadyState_Dict`
before solving. -/
structure ExperimentSSDict where
  phi_b : ℚ
  phi_w : ℚ
  rho_r : ℚ
  phi_y : ℚ
  phi_pi : ℚ
  kappa_p : ℚ
  deficit_T : ℤ

/-- The entries that `run_tax_cut_experiments` writes into its copy of
`SteadyState_Dict` (government spending adjusts instead of the tax rate, so
`phi_G = -phi_b` replaces `phi_b`). -/
structure TaxSSDict where
  phi_G : ℚ
  phi_w : ℚ
  rho_r : ℚ
  phi_y : ℚ
  phi_pi : ℚ
  kappa_p : ℚ
  deficit_T : ℤ

/-- The steady-state dictionary set up by `run_transfer_experiments`: each
recognized key is read from `param_overrides` with the module-level default as
fallback, and `deficit_T` is assigned the constant `-1`. -/
def transfer_ss_dict (p : ParamOverrides) : ExperimentSSDict where
  phi_b := p.phi_b.getD phi_b
  phi_w := p.real_wage_rigidity.getD real_wage_rigidity
  rho_r := p.rho_r.getD rho_r
  phi_y := p.phi_y.getD phi_y
  phi_pi := p.phi_pi.getD phi_pi
  kappa_p := p.kappa_p.getD kappa_p_ss
  deficit_T := -1

/-- The steady-state dictionary set up by `run_ui_extension_experiments`
(same assignments as the transfer experiment). -/
def ui_ss_dict (p : ParamOverrides) : ExperimentSSDict where
  phi_b := p.phi_b.getD phi_b
  phi_w := p.real_wage_rigidity.getD real_wage_rigidity
  rho_r := p.rho_r.getD rho_r
  phi_y := p.phi_y.getD phi_y
  phi_pi := p.phi_pi.getD phi_pi
  kappa_p := p.kappa_p.getD kappa_p_ss
  deficit_T := -1

/-- The steady-state dictionary set up by `run_tax_cut_experiments`. -/
def tax_ss_dict (p : ParamOverrides) : TaxSSDict where
  phi_G := -(p.phi_b.getD phi_b)
  phi_w := p.real_wage_rigidity.getD real_wage_rigidity
  rho_r := p.rho_r.getD rho_r
  phi_y := p.phi_y.getD phi_y
  phi_pi := p.phi_pi.getD phi_pi
  kappa_p := p.kappa_p.getD kappa_p_ss
  deficit_T := -1

/-- The UI-extension shock length used by `run_ui_extension_experiments`:
`param_overrides.get("UI_extension_length", UI_extension_length)`. -/
def ui_shock_length (p : ParamOverrides) : ℕ :=
  p.UI_extension_length.getD UI_extension_length

/-- The tax-cut shock length used by `run_tax_cut_experiments`:
`param_overrides.get("tax_cut_length", tax_cut_length)`. -/
def tax_shock_length (p : ParamOverrides) : ℕ :=
  p.tax_cut_length.getD tax_cut_length

/-- The `"lag"` entry written by `run_transfer_experiments` for the
lagged-Taylor-rule solve: the local constant `monetary_policy_lag = 2`,
independent of `param_overrides`. -/
def transfer_lagged_lag (_ : ParamOverrides) : ℤ := 2

/-- A `param_overrides` mapping supplying `deficit_T = 5` and `lag = 7`. -/
def overrides_deficit_lag : ParamOverrides :=
  ⟨none, none, none, none, none, none, none, none, some 5, some 7⟩

/-- C4 (counterexample): supplying `deficit_T = 5` and `lag = 7` in
`param_overrides` leaves the configuration used by the experiment runs
unchanged: `run_transfer_experiments` never reads those keys and hardcodes
`deficit_T = -1` in the steady-state dictionary and
`monetary_policy_lag = 2` for the lagged-Taylor-rule solve, so neither
supplied value reaches the solved experiments. -/
theorem C4_counterexample :
    overrides_deficit_lag.deficit_T = some 5 ∧
    (transfer_ss_dict overrides_deficit_lag).deficit_T = -1 ∧
    (transfer_ss_dict overrides_deficit_lag).deficit_T ≠ 5 ∧
    overrides_deficit_lag.lag = some 7 ∧
    transfer_lagged_lag overrides_deficit_lag = 2 ∧
    transfer_lagged_lag overrides_deficit_lag ≠ 7 :=
  ⟨rfl, rfl, by decide, rfl, rfl, by decide⟩

/-- C4 (amended): each of the recognized override keys `phi_pi`, `phi_y`,
`rho_r`, `kappa_p`, `phi_b`, `real_wage_rigidity` (written as `phi_w`) — and
`UI_extension_length` / `tax_cut_length` for the shock lengths of their
respective experiments — changes the configuration actually used by the
experiment runs when supplied; but `deficit_T` and `lag` are not read from
`param_overrides`: every experiment hardcodes `deficit_T = -1` and the
lagged-Taylor-rule experiment hardcodes `lag = 2`, so supplying those keys has
no effect. -/
theorem C4_param_overrides (p : ParamOverrides) :
    (∀ v, p.phi_pi = some v → (transfer_ss_dict p).phi_pi = v) ∧
    (∀ v, p.phi_y = some v → (transfer_ss_dict p).phi_y = v) ∧
    (∀ v, p.rho_r = some v → (transfer_ss_dict p).rho_r = v) ∧
    (∀ v, p.kappa_p = some v → (transfer_ss_dict p).kappa_p = v) ∧
    (∀ v, p.phi_b = some v →
      (transfer_ss_dict p).phi_b = v ∧ (tax_ss_dict p).phi_G = -v) ∧
    (∀ v, p.real_wage_rigidity = some v → (transfer_ss_dict p).phi_w = v) ∧
    (∀ n, p.UI_extension_length = some n → ui_shock_length p = n) ∧
    (∀ n, p.tax_cut_length = some n → tax_shock_length p = n) ∧
    (transfer_ss_dict p).deficit_T = -1 ∧
    (ui_ss_dict p).deficit_T = -1 ∧
    (tax_ss_dict p).deficit_T = -1 ∧
    transfer_lagged_lag p = 2 := by
  refine ⟨?_, ?_, ?_, ?_, ?_, ?_, ?_, ?_, rfl, rfl, rfl, rfl⟩ <;>
    · intro v hv
      simp [transfer_ss_dict, tax_ss_dict, ui_shock_length, tax_shock_length, hv]

/-- A `param_overrides` mapping supplying `phi_pi = 2.5`. -/
def overrides_phi_pi : ParamOverrides :=
  ⟨some 2.5, none, none, none, none, none, none, none, none, none⟩

theorem C4_param_overrides_witness :
    overrides_phi_pi.phi_pi = some 2.5 ∧
    (transfer_ss_dict overrides_phi_pi).phi_pi = 2.5 ∧
    transfer_lagged_lag overrides_phi_pi = 2 := by
  obtain ⟨h1, -, -, -, -, -, -, -, -, -, -, h12⟩ := C4_param_overrides overrides_phi_pi
  exact ⟨rfl, h1 _ rfl, h12⟩

/-- The monetary regime a solve call is run under. -/
inductive Regime where
  | standard
  | fixedNominal
  | fixedReal
  | lagged
deriving DecidableEq

/-- One invocation of `solve_impulse_linear` in the experiment functions: the
regime, whether the model passed is one of the fixed-real-rate models (those
containing `fisher_clearing_fixed_real_rate` instead of `fisher_clearing` and
a Taylor block), the `unknowns` and `targets` lists passed, and the `phi_pi`
entry of the steady-state dictionary passed. -/
structure SolveCall where
  regime : Regime
  fixed_real_model : Bool
  unknowns : List String
  targets : List String
  phi_pi_used : ℚ

/-- The four `solve_impulse_linear` calls of `run_ui_extension_experiments`,
in source order: standard Taylor rule, fixed nominal rate (same model, with
`phi_pi` set to 0 in a copy of the steady-state dictionary), fixed real rate,
and the UI-extension-realizations run on the second fixed-real-rate model. -/
def ui_solve_calls (p : ParamOverrides) : List SolveCall :=
  [⟨Regime.standard, false, ["theta", "r_ante"], ["asset_mkt", "fisher_resid"],
     (ui_ss_dict p).phi_pi⟩,
   ⟨Regime.fixedNominal, false, ["theta", "r_ante"], ["asset_mkt", "fisher_resid"], 0⟩,
   ⟨Regime.fixedReal, true, ["theta"], ["asset_mkt"], (ui_ss_dict p).phi_pi⟩,
   ⟨Regime.fixedReal, true, ["theta"], ["asset_mkt"], (ui_ss_dict p).phi_pi⟩]

/-- The four `solve_impulse_linear` calls of `run_transfer_experiments`, in
source order: standard Taylor rule, fixed nominal rate (`phi_pi = 0`), fixed
real rate, and the lagged-Taylor-rule run. -/
def transfer_solve_calls (p : ParamOverrides) : List SolveCall :=
  [⟨Regime.standard, false, ["theta", "r_ante"], ["asset_mkt", "fisher_resid"],
     (transfer_ss_dict p).phi_pi⟩,
   ⟨Regime.fixedNominal, false, ["theta", "r_ante"], ["asset_mkt", "fisher_resid"], 0⟩,
   ⟨Regime.fixedReal, true, ["theta"], ["asset_mkt"], (transfer_ss_dict p).phi_pi⟩,
   ⟨Regime.lagged, false, ["theta", "r_ante"], ["asset_mkt", "fisher_resid"],
     (transfer_ss_dict p).phi_pi⟩]

/-- The three `solve_impulse_linear` calls of `run_tax_cut_experiments`, in
source order: standard Taylor rule, fixed nominal rate (`phi_pi = 0`), fixed
real rate. -/
def tax_solve_calls (p : ParamOverrides) : List SolveCall :=
  [⟨Regime.standard, false, ["theta", "r_ante"], ["asset_mkt", "fisher_resid"],
     (tax_ss_dict p).phi_pi⟩,
   ⟨Regime.fixedNominal, false, ["theta", "r_ante"], ["asset_mkt", "fisher_resid"], 0⟩,
   ⟨Regime.fixedReal, true, ["theta"], ["asset_mkt"], (tax_ss_dict p).phi_pi⟩]

/-- All eleven impulse-response solves of the three experiment functions. -/
def all_solve_calls (p : ParamOverrides) : List SolveCall :=
  ui_solve_calls p ++ transfer_solve_calls p ++ tax_solve_calls p

/-- C5: every impulse-response solve under the standard Taylor rule, the
lagged Taylor rule or the fixed-nominal-rate regime is invoked with unknowns
`{theta, r_ante}` paired with targets `{asset_mkt, fisher_resid}`; every solve
under a fixed-real-rate regime (and only those) runs on a fixed-real-rate
model with the reduced pairing of unknown `{theta}` against target
`{asset_mkt}`; and the fixed-nominal-rate solves are obtained by setting
`phi_pi` to 0 in the steady-state dictionary. -/
theorem C5_unknowns_targets (p : ParamOverrides) (c : SolveCall)
    (hc : c ∈ all_solve_calls p) :
    (c.regime ≠ Regime.fixedReal →
      c.fixed_real_model = false ∧ c.unknowns = ["theta", "r_ante"] ∧
      c.targets = ["asset_mkt", "fisher_resid"]) ∧
    (c.regime = Regime.fixedReal →
      c.fixed_real_model = true ∧ c.unknowns = ["theta"] ∧
      c.targets = ["asset_mkt"]) ∧
    (c.regime = Regime.fixedNominal → c.phi_pi_used = 0) := by
  simp only [all_solve_calls, ui_solve_calls, transfer_solve_calls, tax_solve_calls,
    List.append_assoc, List.mem_append, List.mem_cons, List.not_mem_nil, or_false,
    or_assoc] at hc
  rcases hc with rfl | rfl | rfl | rfl | rfl | rfl | rfl | rfl | rfl | rfl | rfl <;>
    refine ⟨fun h => ?_, fun h => ?_, fun h => ?_⟩ <;> simp_all

/-- A `param_overrides` mapping supplying nothing. -/
def overrides_empty : ParamOverrides :=
  ⟨none, none, none, none, none, none, none, none, none, none⟩

theorem C5_unknowns_targets_witness :
    (⟨Regime.standard, false, ["theta", "r_ante"], ["asset_mkt", "fisher_resid"],
        (ui_ss_dict overrides_empty).phi_pi⟩ : SolveCall) ∈
      all_solve_calls overrides_empty ∧
    ((Regime.standard ≠ Regime.fixedReal →
        (false : Bool) = false ∧
        (["theta", "r_ante"] : List String) = ["theta", "r_ante"] ∧
        (["asset_mkt", "fisher_resid"] : List String) = ["asset_mkt", "fisher_resid"]) ∧
      (Regime.standard = Regime.fixedReal →
        (false : Bool) = true ∧ (["theta", "r_ante"] : List String) = ["theta"] ∧
        (["asset_mkt", "fisher_resid"] : List String) = ["asset_mkt"]) ∧
      (Regime.standard = Regime.fixedNominal →
        (ui_ss_dict overrides_empty).phi_pi = 0)) := by
  have hm : (⟨Regime.standard, false, ["theta", "r_ante"],
      ["asset_mkt", "fisher_resid"], (ui_ss_dict overrides_empty).phi_pi⟩ : SolveCall) ∈
      all_solve_calls overrides_empty := by
    simp [all_solve_calls, ui_solve_calls]
  exact ⟨hm, C5_unknowns_targets overrides_empty _ hm⟩

end HankSam
